import Mathlib

set_option autoImplicit false

/-! # gqlgen on fasthttp: the dispatch server and the client request options

A shallow embedding of `graphql/handler/server.go` and `client/options.go`.

Go pointers to mutable records become explicit state passing: a method that
mutates its receiver returns the updated record.  A Go panic is a value in
flight (`Option Value`), and `defer`/`recover` is a function applied to the
state the panicking body left behind.  Calls made to collaborators whose
effect cannot be read off the response are recorded in a call log.

Library code outside the two source files (fasthttp's request header, the
base64 and JSON encoders) is modelled next to the place it is called from; each
such definition says which library routine it stands for.
-/

namespace gqlgen

/-! ## Go values -/

/-- A Go value of interface type: the nil interface, or a string, integer,
boolean or error held in it. -/
inductive Value
  | nil
  | str (s : String)
  | int (n : Int)
  | bool (b : Bool)
  | err (msg : String)
  deriving DecidableEq, Repr

/-- The Go type error: none is the nil error, some msg an error whose Error()
text is msg. -/
abbrev error := Option String

/-- Go fmt.Errorf applied to a format without verbs and no arguments: an error
carrying the format text itself. -/
def fmt.Errorf (format : String) : error := some format

/-- Go fmt.Sprintf applied to a format without verbs and no arguments: the
format text itself. -/
def fmt.Sprintf (format : String) : String := format

/-! ## fasthttp: the per-request context the server handler works on -/

namespace fasthttp

/-- The inbound request as far as a transport can inspect it. -/
structure InboundRequest where
  Method : String
  URI : String
  ContentType : String
  Body : String
  deriving DecidableEq, Repr

/-- The response under construction: status code and the bytes written so far. -/
structure Response where
  StatusCode : Nat
  Body : String
  deriving DecidableEq, Repr

/-- The fasthttp request context: the request and the response being built. -/
structure RequestCtx where
  Request : InboundRequest
  Response : Response
  deriving DecidableEq, Repr

/-- fasthttp.StatusUnprocessableEntity. -/
def StatusUnprocessableEntity : Nat := 422

/-- Response.SetStatusCode (and Response.Header.SetStatusCode, which it
forwards to): overwrite the status code. -/
def RequestCtx.SetStatusCode (ctx : RequestCtx) (code : Nat) : RequestCtx :=
  { ctx with Response := { ctx.Response with StatusCode := code } }

/-- RequestCtx.Write: append bytes to the response body. -/
def RequestCtx.Write (ctx : RequestCtx) (b : String) : RequestCtx :=
  { ctx with Response := { ctx.Response with Body := ctx.Response.Body ++ b } }

end fasthttp

/-- net/http StatusBadRequest. -/
def http.StatusBadRequest : Nat := 400

/-- Go time.Duration, in nanoseconds. -/
abbrev time.Duration := Int

/-- Go time.Second. -/
def time.Second : time.Duration := 1000000000

/-! ## gqlerror and the response envelope -/

/-- Modelled from the spec: gqlerror.Error, an error object of the boundary
envelope, of which the spec fixes the message field. -/
structure gqlerror.Error where
  Message : String
  deriving DecidableEq, Repr

namespace graphql

/-- Modelled from the spec: graphql.Response as the handler builds it, the
envelope with its single field errors (the type is declared outside the two
source files). -/
structure Response where
  Errors : List gqlerror.Error
  deriving DecidableEq, Repr

/-- The executable schema handed to the constructors; opaque to the server. -/
structure ExecutableSchema where
  id : Nat
  deriving DecidableEq, Repr

/-- Go context.Context as seen by the middleware adapters; opaque here. -/
structure Context where
  id : Nat
  deriving DecidableEq, Repr

/-- The type graphql.ResponseHandler. -/
abbrev ResponseHandler := Context → Option Response

/-- The type graphql.OperationHandler. -/
abbrev OperationHandler := Context → ResponseHandler

/-- The type graphql.Resolver: a result value and an error. -/
abbrev Resolver := Context → Value × error

end graphql

/-! ## encoding/json on the envelope -/

namespace json

/-- Lower-case hexadecimal digit of a number below 16. -/
def hexDigit (n : Nat) : Char := "0123456789abcdef".data.getD n '0'

/-- The escape \uXXXX of a code point below 65536. -/
def unicodeEscape (n : Nat) : List Char :=
  [Char.ofNat 92, 'u', hexDigit (n / 4096 % 16), hexDigit (n / 256 % 16),
    hexDigit (n / 16 % 16), hexDigit (n % 16)]

/-- One character of a JSON string as encoding/json writes it (HTML escaping
on, as json.Marshal has it): quote and backslash get a backslash, line feed,
carriage return and tab their short escapes, other control characters, the
characters less-than, greater-than and ampersand, and U+2028 and U+2029 the
\uXXXX form. -/
def escapeChar (c : Char) : List Char :=
  if c.toNat = 34 then [Char.ofNat 92, Char.ofNat 34]
  else if c.toNat = 92 then [Char.ofNat 92, Char.ofNat 92]
  else if c.toNat = 10 then [Char.ofNat 92, 'n']
  else if c.toNat = 13 then [Char.ofNat 92, 'r']
  else if c.toNat = 9 then [Char.ofNat 92, 't']
  else if c.toNat < 32 ∨ c.toNat = 60 ∨ c.toNat = 62 ∨ c.toNat = 38
      ∨ c.toNat = 8232 ∨ c.toNat = 8233 then unicodeEscape c.toNat
  else [c]

/-- A Go string as a JSON string literal. -/
def quote (s : String) : String :=
  String.mk ([Char.ofNat 34] ++ s.data.flatMap escapeChar ++ [Char.ofNat 34])

/-- Modelled from the spec: the JSON form of one error object, an object with
the field message. -/
def marshalError (e : gqlerror.Error) : String :=
  "\x7b" ++ quote "message" ++ ":" ++ quote e.Message ++ "\x7d"

/-- Modelled from the spec: json.Marshal on the response envelope, a JSON
object with the single field errors holding the error objects in order and no
data field.  The Go call returns bytes and an error; on the envelopes built
here the error is always nil. -/
def Marshal (r : graphql.Response) : Except String String :=
  .ok ("\x7b" ++ quote "errors" ++ ":[" ++ ",".intercalate (r.Errors.map marshalError)
    ++ "]\x7d")

end json

/-! ## The executor, as far as the server configures and calls it -/

/-- Modelled from the spec: a bounded cache as lru.New builds it; of the cache
the server only fixes the capacity. -/
structure lru.LRU where
  capacity : Nat
  deriving DecidableEq, Repr

/-- Modelled from the spec: lru.New, a cache bounded to the given number of
entries. -/
def lru.New (size : Nat) : lru.LRU := ⟨size⟩

/-- Modelled from the spec: the execution extensions the default server
installs, and a case for any other extension, known by its name. -/
inductive graphql.HandlerExtension
  | Introspection
  | AutomaticPersistedQuery (Cache : lru.LRU)
  | named (ExtensionName : String)
  deriving DecidableEq, Repr

namespace executor

/-- Modelled from the spec: the execution engine as the server sees it: the
schema it wraps, the query cache and extensions configured on it, and the
function that turns a recovered panic value into a presented error (the
configured recover function followed by the error presenter). -/
structure Executor where
  es : graphql.ExecutableSchema
  queryCache : Option lru.LRU
  extensions : List graphql.HandlerExtension
  PresentRecoveredError : fasthttp.RequestCtx → Value → gqlerror.Error

/-- Modelled from the spec: executor.New, a fresh executor wrapping the schema,
with no cache and no extension configured.  The engine's default recover
function and presenter are external and enter as the argument present. -/
def New (present : fasthttp.RequestCtx → Value → gqlerror.Error)
    (es : graphql.ExecutableSchema) : Executor :=
  { es := es, queryCache := none, extensions := [], PresentRecoveredError := present }

/-- Modelled from the spec: Executor.SetQueryCache, forwarded configuration. -/
def Executor.SetQueryCache (e : Executor) (cache : lru.LRU) : Executor :=
  { e with queryCache := some cache }

/-- Modelled from the spec: Executor.Use, which installs an extension after
those already installed. -/
def Executor.Use (e : Executor) (extension : graphql.HandlerExtension) : Executor :=
  { e with extensions := e.extensions ++ [extension] }

end executor

/-! ## Transports -/

namespace graphql

/-- How a call of Transport.Do ends: it returns, or it panics, v being the
value recover() then yields; either way the context is as the call left it. -/
inductive DoResult
  | returned (ctx : fasthttp.RequestCtx)
  | panicked (ctx : fasthttp.RequestCtx) (v : Value)

/-- The interface graphql.Transport: the two methods of a transport.  Supports
is a predicate on the request; Do works on the context with the executor. -/
structure Transport where
  Supports : fasthttp.RequestCtx → Bool
  Do : fasthttp.RequestCtx → executor.Executor → DoResult

end graphql

/-- The transports of the package graphql/handler/transport that the default
server registers; the package is outside the two source files, so its values
enter as a parameter. -/
structure transport.Package where
  Websocket : (KeepAlivePingInterval : time.Duration) → graphql.Transport
  Options : graphql.Transport
  GET : graphql.Transport
  POST : graphql.Transport
  MultipartForm : graphql.Transport

/-! ## graphql/handler/server.go -/

namespace handler

/-- The struct Server: the registered transports and the executor. -/
structure Server where
  transports : List graphql.Transport
  exec : executor.Executor

/-- The constructor New: a server around a fresh executor, no transport. -/
def New (present : fasthttp.RequestCtx → Value → gqlerror.Error)
    (es : graphql.ExecutableSchema) : Server :=
  { transports := [], exec := executor.New present es }

/-- The method AddTransport: append to the transport list. -/
def Server.AddTransport (s : Server) (transport : graphql.Transport) : Server :=
  { s with transports := s.transports ++ [transport] }

/-- The method SetQueryCache: forwarded to the executor. -/
def Server.SetQueryCache (s : Server) (cache : lru.LRU) : Server :=
  { s with exec := s.exec.SetQueryCache cache }

/-- The method Use: forwarded to the executor. -/
def Server.Use (s : Server) (extension : graphql.HandlerExtension) : Server :=
  { s with exec := s.exec.Use extension }

/-- The constructor NewDefaultServer. -/
def NewDefaultServer (pkg : transport.Package)
    (present : fasthttp.RequestCtx → Value → gqlerror.Error)
    (es : graphql.ExecutableSchema) : Server :=
  let srv := New present es
  let srv := srv.AddTransport (pkg.Websocket (10 * time.Second))
  let srv := srv.AddTransport pkg.Options
  let srv := srv.AddTransport pkg.GET
  let srv := srv.AddTransport pkg.POST
  let srv := srv.AddTransport pkg.MultipartForm
  let srv := srv.SetQueryCache (lru.New 1000)
  let srv := srv.Use graphql.HandlerExtension.Introspection
  let srv := srv.Use (graphql.HandlerExtension.AutomaticPersistedQuery (lru.New 100))
  srv

/-- The loop of getTransport over a transport list: the first transport that
supports the request, or none (Go nil). -/
def scanTransports (ctx : fasthttp.RequestCtx) :
    List graphql.Transport → Option graphql.Transport
  | [] => none
  | t :: rest => if t.Supports ctx then some t else scanTransports ctx rest

/-- The method getTransport. -/
def Server.getTransport (s : Server) (ctx : fasthttp.RequestCtx) :
    Option graphql.Transport :=
  scanTransports ctx s.transports

/-- The function sendError: set the status, marshal the envelope, panic with
the marshalling error if there is one, else write the bytes.  The second
component is the panic in flight, if any. -/
def sendError (ctx : fasthttp.RequestCtx) (code : Nat) (errors : List gqlerror.Error) :
    fasthttp.RequestCtx × Option Value :=
  let ctx := ctx.SetStatusCode code
  match json.Marshal { Errors := errors } with
  | .error err => (ctx, some (Value.err err))
  | .ok b => (ctx.Write b, none)

/-- The function sendErrorf, called with a format and no further arguments. -/
def sendErrorf (ctx : fasthttp.RequestCtx) (code : Nat) (format : String) :
    fasthttp.RequestCtx × Option Value :=
  sendError ctx code [{ Message := fmt.Sprintf format }]

/-- A call the request handler makes to a collaborator. -/
inductive Call
  | StartOperationTrace
  | Do (t : graphql.Transport) (exec : executor.Executor)
  | PresentRecoveredError (v : Value)

/-- The state of one run of the request handler: the context and the calls
made so far. -/
structure Run where
  ctx : fasthttp.RequestCtx
  calls : List Call

/-- The body of the closure Handler returns, after the defer statement: start
the operation trace (a time stamp for the engine, kept here as an entry of the
call log only), pick the transport, answer 400 if there is none, else call its
Do.  The second component is the panic in flight when the body is left, if
any. -/
def Server.handlerBody (s : Server) (ctx : fasthttp.RequestCtx) : Run × Option Value :=
  let calls := [Call.StartOperationTrace]
  match s.getTransport ctx with
  | none =>
    let r := sendErrorf ctx http.StatusBadRequest "transport not supported"
    (⟨r.1, calls⟩, r.2)
  | some transport =>
    match transport.Do ctx s.exec with
    | .returned ctx1 => (⟨ctx1, calls ++ [Call.Do transport s.exec]⟩, none)
    | .panicked ctx1 v => (⟨ctx1, calls ++ [Call.Do transport s.exec]⟩, some v)

/-- The deferred function of the closure: recover() ends a panic in flight; if
the recovered value is not nil, present it, marshal the one-error envelope
(ignoring a marshalling error), set status 422 and write the bytes. -/
def Server.handlerDeferred (s : Server) : Run × Option Value → Run × Option Value
  | (r, none) => (r, none)
  | (r, some v) =>
    if v = Value.nil then (r, none)
    else
      let err := s.exec.PresentRecoveredError r.ctx v
      let resp : graphql.Response := { Errors := [err] }
      let b := match json.Marshal resp with
        | .ok b => b
        | .error _ => ""
      let ctx := r.ctx.SetStatusCode fasthttp.StatusUnprocessableEntity
      (⟨ctx.Write b, r.calls ++ [Call.PresentRecoveredError v]⟩, none)

/-- The request handler returned by the method Handler: the body, then the
deferred function. -/
def Server.Handler (s : Server) (ctx : fasthttp.RequestCtx) : Run × Option Value :=
  s.handlerDeferred (s.handlerBody ctx)

/-- The calls of Transport.Do in a call log, in order. -/
def doCalls : List Call → List (graphql.Transport × executor.Executor)
  | [] => []
  | Call.Do t e :: rest => (t, e) :: doCalls rest
  | _ :: rest => doCalls rest

/-- The type OperationFunc: a function value, or nil. -/
abbrev OperationFunc :=
  Option (graphql.Context → graphql.OperationHandler → graphql.ResponseHandler)

/-- The method OperationFunc.ExtensionName. -/
def OperationFunc.ExtensionName (_r : OperationFunc) : String := "InlineOperationFunc"

/-- The method OperationFunc.Validate. -/
def OperationFunc.Validate (r : OperationFunc) (_schema : graphql.ExecutableSchema) :
    error :=
  match r with
  | none => fmt.Errorf "OperationFunc can not be nil"
  | some _ => none

/-- The type ResponseFunc: a function value, or nil. -/
abbrev ResponseFunc :=
  Option (graphql.Context → graphql.ResponseHandler → Option graphql.Response)

/-- The method ResponseFunc.ExtensionName. -/
def ResponseFunc.ExtensionName (_r : ResponseFunc) : String := "InlineResponseFunc"

/-- The method ResponseFunc.Validate. -/
def ResponseFunc.Validate (r : ResponseFunc) (_schema : graphql.ExecutableSchema) :
    error :=
  match r with
  | none => fmt.Errorf "ResponseFunc can not be nil"
  | some _ => none

/-- The type FieldFunc: a function value, or nil. -/
abbrev FieldFunc :=
  Option (graphql.Context → graphql.Resolver → Value × error)

/-- The method FieldFunc.ExtensionName. -/
def FieldFunc.ExtensionName (_f : FieldFunc) : String := "InlineFieldFunc"

/-- The method FieldFunc.Validate. -/
def FieldFunc.Validate (f : FieldFunc) (_schema : graphql.ExecutableSchema) : error :=
  match f with
  | none => fmt.Errorf "FieldFunc can not be nil"
  | some _ => none

end handler

/-! ## fasthttp: the header of an outgoing request -/

namespace fasthttp

/-- The struct argsKV of fasthttp: one stored key and value. -/
structure argsKV where
  key : String
  value : String
  deriving DecidableEq, Repr

/-- The helper appendArg of fasthttp: a new entry after those stored. -/
def appendArg (h : List argsKV) (key value : String) : List argsKV :=
  h ++ [⟨key, value⟩]

/-- The helper setArg of fasthttp: its loop rewrites the value of the first
stored entry whose key equals the given one and returns at once; when no entry
has the key, the pair is appended.  Entries after the first match are not
looked at. -/
def setArg : List argsKV → String → String → List argsKV
  | [], key, value => appendArg [] key value
  | kv :: rest, key, value =>
    if key = kv.key then ⟨kv.key, value⟩ :: rest else kv :: setArg rest key value

/-- The loop of normalizeHeaderKey from the second byte on: a hyphen is kept
and the byte after it is put in upper case and skipped; any other byte is put
in lower case. -/
def normalizeTail : List Char → List Char
  | [] => []
  | [c] => [if c = '-' then c else c.toLower]
  | c :: d :: rest =>
    if c = '-' then c :: d.toUpper :: normalizeTail rest
    else c.toLower :: normalizeTail (d :: rest)

/-- The helper normalizeHeaderKey of fasthttp (normalizing enabled, the
default): first letter and every letter after a hyphen in upper case, the
others in lower case; only ASCII letters change. -/
def normalizeHeaderKey (key : String) : String :=
  match key.data with
  | [] => key
  | c :: rest => String.mk (c.toUpper :: normalizeTail rest)

/-- The struct RequestHeader of fasthttp, as far as the client options reach
it: the request URI, the list h of headers stored by name, the cookie list,
and the flag that says whether Cookie headers stored in h have been moved
into the cookie list already. -/
structure RequestHeader where
  requestURI : String
  h : List argsKV
  cookies : List argsKV
  cookiesCollected : Bool
  deriving DecidableEq, Repr

/-- The blanks at both ends of a cookie name or value removed. -/
def trimSpaces (src : List Char) : List Char :=
  ((src.dropWhile (fun c => c = ' ')).reverse.dropWhile (fun c => c = ' ')).reverse

/-- The helper decodeCookieArg of fasthttp: blanks at both ends are dropped,
and, where quotes are skipped, one pair of double quotes around the rest. -/
def decodeCookieArg (src : List Char) (skipQuotes : Bool) : List Char :=
  let src := trimSpaces src
  if skipQuotes ∧ 1 < src.length ∧ src.head? = some (Char.ofNat 34)
      ∧ src.getLast? = some (Char.ofNat 34) then
    (src.drop 1).dropLast
  else src

/-- The pieces of a Cookie header value between semicolons. -/
def cookieSegments : List Char → List (List Char)
  | [] => [[]]
  | c :: rest =>
    match cookieSegments rest with
    | [] => [[c]]
    | seg :: more => if c = ';' then [] :: seg :: more else (c :: seg) :: more

/-- One step of the cookieScanner of fasthttp on a piece: what stands before
the first equals sign is the name, what stands after it the value; a piece
without equals sign is a value with an empty name. -/
def scanCookie (seg : List Char) : argsKV :=
  match seg.span (fun c => c ≠ '=') with
  | (name, _ :: value) =>
    ⟨String.mk (decodeCookieArg name false), String.mk (decodeCookieArg value true)⟩
  | (value, []) => ⟨"", String.mk (decodeCookieArg value true)⟩

/-- The helper parseRequestCookies of fasthttp: the cookies of a Cookie header
value, in order, after those already in the list; a piece with neither name
nor value gives no cookie. -/
def parseRequestCookies (cookies : List argsKV) (src : String) : List argsKV :=
  cookies ++ ((cookieSegments src.data).map scanCookie).filter
    (fun kv => decide (kv.key ≠ "" ∨ kv.value ≠ ""))

/-- The method RequestHeader.collectCookies: unless done before, every Cookie
header stored in h is parsed into the cookie list and taken out of h, the
other headers keeping their order.  Stored names are in canonical form, so the
name is compared with Cookie as it stands. -/
def RequestHeader.collectCookies (hd : RequestHeader) : RequestHeader :=
  if hd.cookiesCollected then hd
  else
    { hd with
      h := hd.h.filter (fun kv => decide (kv.key ≠ "Cookie"))
      cookies := (hd.h.filter (fun kv => decide (kv.key = "Cookie"))).foldl
        (fun cs kv => parseRequestCookies cs kv.value) hd.cookies
      cookiesCollected := true }

/-- The method RequestHeader.Add: the name is put in canonical form and the
pair is appended to h, whatever h already holds under that name. -/
def RequestHeader.Add (hd : RequestHeader) (key value : String) : RequestHeader :=
  { hd with h := appendArg hd.h (normalizeHeaderKey key) value }

/-- The method RequestHeader.Set for a name without a dedicated field (the
client only sets Authorization) and a value without line breaks: the name is
put in canonical form and handed with the value to setArg on h. -/
def RequestHeader.Set (hd : RequestHeader) (key value : String) : RequestHeader :=
  { hd with h := setArg hd.h (normalizeHeaderKey key) value }

/-- The method RequestHeader.SetCookie: collectCookies first, then setArg on
the cookie list, the cookie name taken as it is. -/
def RequestHeader.SetCookie (hd : RequestHeader) (key value : String) : RequestHeader :=
  let hd := hd.collectCookies
  { hd with cookies := setArg hd.cookies key value }

/-- The values stored under a key, in order. -/
def valuesOf (key : String) (l : List argsKV) : List String :=
  (l.filter (fun kv => kv.key = key)).map (fun kv => kv.value)

/-- The method RequestHeader.PeekAll: all values stored in h under the
canonical form of the name, in order. -/
def RequestHeader.PeekAll (hd : RequestHeader) (key : String) : List String :=
  valuesOf (normalizeHeaderKey key) hd.h

/-- The struct fasthttp.Request, reduced to its header. -/
structure Request where
  Header : RequestHeader
  deriving DecidableEq, Repr

/-- The method Request.SetRequestURI. -/
def Request.SetRequestURI (req : Request) (requestURI : String) : Request :=
  { req with Header := { req.Header with requestURI := requestURI } }

end fasthttp

/-! ## encoding/base64 -/

/-- The UTF-8 bytes of one character. -/
def utf8EncodeChar (c : Char) : List Nat :=
  let v := c.toNat
  if v ≤ 127 then [v]
  else if v ≤ 2047 then [192 + v / 64, 128 + v % 64]
  else if v ≤ 65535 then [224 + v / 4096, 128 + v / 64 % 64, 128 + v % 64]
  else [240 + v / 262144, 128 + v / 4096 % 64, 128 + v / 64 % 64, 128 + v % 64]

/-- The Go conversion of a string to its bytes, for strings that are valid
UTF-8. -/
def bytes (s : String) : List Nat := s.data.flatMap utf8EncodeChar

namespace base64

/-- The standard alphabet of RFC 4648. -/
def encodeStd : List Char :=
  "ABCDEFGHIJKLMNOPQRSTUVWXYZabcdefghijklmnopqrstuvwxyz0123456789+/".data

/-- The padding character of the standard encoding. -/
def StdPadding : Char := '='

/-- The alphabet character of a six-bit group. -/
def digit (n : Nat) : Char := encodeStd.getD (n % 64) 'A'

/-- Encoding with the standard alphabet and padding: each three bytes give
four characters; a last group of one or two bytes is padded to four. -/
def encode : List Nat → List Char
  | [] => []
  | [a] => [digit (a / 4), digit (a % 4 * 16), StdPadding, StdPadding]
  | [a, b] => [digit (a / 4), digit (a % 4 * 16 + b / 16), digit (b % 16 * 4), StdPadding]
  | a :: b :: c :: rest =>
    digit (a / 4) :: digit (a % 4 * 16 + b / 16) :: digit (b % 16 * 4 + c / 64)
      :: digit (c % 64) :: encode rest

/-- The call base64.StdEncoding.EncodeToString. -/
def StdEncoding.EncodeToString (src : List Nat) : String := String.mk (encode src)

end base64

/-! ## client/options.go -/

namespace client

/-- A Go map from string to interface values. -/
abbrev Map := String → Option Value

/-- The empty map literal. -/
def Map.empty : Map := fun _ => none

/-- The map assignment m[name] = value. -/
def Map.set (m : Map) (name : String) (value : Value) : Map :=
  fun k => if k = name then some value else m k

/-- The struct client.Request: query, variables (none is the nil map),
operation name and the fasthttp request. -/
structure Request where
  Query : String
  Variables : Option Map
  OperationName : String
  HTTP : fasthttp.Request

/-- Modelled from the spec: a fresh outgoing request, created empty. -/
def Request.fresh : Request :=
  { Query := "", Variables := none, OperationName := "",
    HTTP := { Header := { requestURI := "", h := [], cookies := [],
                          cookiesCollected := false } } }

/-- The function basicAuth. -/
def basicAuth (username password : String) : String :=
  let auth := username ++ ":" ++ password
  base64.StdEncoding.EncodeToString (bytes auth)

/-- The function SetBasicAuth. -/
def SetBasicAuth (req : fasthttp.Request) (username password : String) : fasthttp.Request :=
  { req with Header := req.Header.Set "Authorization" ("Basic " ++ basicAuth username password) }

/-- The type Option of the client package: a function that mutates the request. -/
def Option := Request → Request

/-- The option Var: make the variables map if it is nil, then assign. -/
def Var (name : String) (value : Value) : Option := fun bd =>
  let bd := match bd.Variables with
    | none => { bd with Variables := some Map.empty }
    | some _ => bd
  { bd with Variables := bd.Variables.map (fun m => m.set name value) }

/-- The option Operation. -/
def Operation (name : String) : Option := fun bd =>
  { bd with OperationName := name }

/-- The option Path. -/
def Path (url : String) : Option := fun bd =>
  { bd with HTTP := bd.HTTP.SetRequestURI url }

/-- The option AddHeader. -/
def AddHeader (key : String) (value : String) : Option := fun bd =>
  { bd with HTTP := { bd.HTTP with Header := bd.HTTP.Header.Add key value } }

/-- The option BasicAuth. -/
def BasicAuth (username password : String) : Option := fun bd =>
  { bd with HTTP := SetBasicAuth bd.HTTP username password }

/-- The option AddCookie. -/
def AddCookie (key value : String) : Option := fun bd =>
  { bd with HTTP := { bd.HTTP with Header := bd.HTTP.Header.SetCookie key value } }

/-- A call of one of the six option constructors. -/
inductive OptionCall
  | Var (name : String) (value : Value)
  | Operation (name : String)
  | Path (url : String)
  | AddHeader (key value : String)
  | BasicAuth (username password : String)
  | AddCookie (key value : String)
  deriving DecidableEq, Repr

/-- The option a constructor call returns. -/
def OptionCall.option : OptionCall → Option
  | .Var name value => client.Var name value
  | .Operation name => client.Operation name
  | .Path url => client.Path url
  | .AddHeader key value => client.AddHeader key value
  | .BasicAuth username password => client.BasicAuth username password
  | .AddCookie key value => client.AddCookie key value

/-- Sequential application of the options of a call sequence, in order. -/
def applyCalls (calls : List OptionCall) (bd : Request) : Request :=
  calls.foldl (fun bd c => c.option bd) bd

end client

namespace options

open fasthttp

/-- The headers the AddHeader calls of a sequence store, in call order: the
canonical name and the value of each call. -/
def addedHeaders : List client.OptionCall → List argsKV
  | [] => []
  | .AddHeader key value :: rest => ⟨normalizeHeaderKey key, value⟩ :: addedHeaders rest
  | _ :: rest => addedHeaders rest

/-- The user name and password of the last BasicAuth call of a sequence. -/
def lastBasicAuth : List client.OptionCall → Option (String × String)
  | [] => none
  | c :: rest =>
    match lastBasicAuth rest with
    | some up => some up
    | none =>
      match c with
      | .BasicAuth username password => some (username, password)
      | _ => none

/-- Whether a call is an AddHeader call for the Cookie header. -/
def namesCookie : client.OptionCall → Bool
  | .AddHeader key _ => decide (normalizeHeaderKey key = "Cookie")
  | _ => false

/-- The header set as the spec words it, one call at a time: AddHeader adds
its pair and keeps what is there; BasicAuth drops every value held under
Authorization and puts its own. -/
def specStep (acc : List argsKV) : client.OptionCall → List argsKV
  | .AddHeader key value => acc ++ [⟨key, value⟩]
  | .BasicAuth username password =>
    acc.filter (fun kv => kv.key ≠ "Authorization")
      ++ [⟨"Authorization", "Basic " ++ client.basicAuth username password⟩]
  | _ => acc

/-- The final header set of a call sequence as the spec words it. -/
def specHeaders (calls : List client.OptionCall) : List argsKV :=
  calls.foldl specStep []

end options

/-! ## Sample data -/

namespace sample

/-- A request context with nothing written yet. -/
def ctx0 : fasthttp.RequestCtx :=
  { Request := { Method := "POST", URI := "/query", ContentType := "application/json", Body := "" },
    Response := { StatusCode := 200, Body := "" } }

/-- A presenter that shows a string panic value as the message. -/
def present0 : fasthttp.RequestCtx → Value → gqlerror.Error
  | _, Value.str s => { Message := s }
  | _, _ => { Message := "internal system error" }

/-- A schema. -/
def es0 : graphql.ExecutableSchema := { id := 0 }

/-- A transport that supports every request and writes A. -/
def transportA : graphql.Transport :=
  { Supports := fun _ => true, Do := fun ctx _ => graphql.DoResult.returned (ctx.Write "A") }

/-- A transport that supports every request and writes B. -/
def transportB : graphql.Transport :=
  { Supports := fun _ => true, Do := fun ctx _ => graphql.DoResult.returned (ctx.Write "B") }

/-- A transport that supports no request. -/
def transportNever : graphql.Transport :=
  { Supports := fun _ => false, Do := fun ctx _ => graphql.DoResult.returned (ctx.Write "N") }

/-- A transport that supports every request and panics with the string boom. -/
def transportBoom : graphql.Transport :=
  { Supports := fun _ => true, Do := fun ctx _ => graphql.DoResult.panicked ctx (Value.str "boom") }

/-- A server with no transport. -/
def bare : handler.Server := handler.New present0 es0

/-- A fresh request given a Cookie header that holds the name k twice. -/
def twoCookies : client.Request :=
  client.AddHeader "Cookie" "k=a; k=b" client.Request.fresh

/-- A fresh request given a Cookie header with one cookie named k and one
named x. -/
def mixedCookies : client.Request :=
  client.AddHeader "Cookie" "x=1; k=0" client.Request.fresh

/-- Two AddHeader calls for Authorization followed by BasicAuth. -/
def authCalls : List client.OptionCall :=
  [.AddHeader "Authorization" "a", .AddHeader "Authorization" "b",
    .BasicAuth "alice" "secret"]

end sample


/-! ## Theorems: the dispatch server -/

namespace handler

open graphql fasthttp

theorem scanTransports_eq_find (ctx : RequestCtx) (l : List Transport) :
    scanTransports ctx l = l.find? (fun t => t.Supports ctx) := by
  induction l with
  | nil => rfl
  | cons t rest ih =>
    by_cases h : t.Supports ctx = true
    · simp [scanTransports, List.find?, h]
    · have h2 : t.Supports ctx = false := by simpa using h
      simp [scanTransports, List.find?, h2, ih]

theorem scanTransports_none_iff (ctx : RequestCtx) (l : List Transport) :
    scanTransports ctx l = none ↔ ∀ t ∈ l, t.Supports ctx = false := by
  rw [scanTransports_eq_find]
  simp [List.find?_eq_none]

theorem scanTransports_append (ctx : RequestCtx) (l1 l2 : List Transport) :
    scanTransports ctx (l1 ++ l2)
      = (scanTransports ctx l1).or (scanTransports ctx l2) := by
  induction l1 with
  | nil => simp [scanTransports]
  | cons t rest ih =>
    by_cases h : t.Supports ctx = true
    · simp [scanTransports, h]
    · have h2 : t.Supports ctx = false := by simpa using h
      simp [scanTransports, h2, ih]

theorem scanTransports_least (ctx : RequestCtx) (l : List Transport) (i : Nat)
    (hi : i < l.length) (hsup : (l.get ⟨i, hi⟩).Supports ctx = true)
    (hmin : ∀ j (hj : j < i), (l.get ⟨j, Nat.lt_trans hj hi⟩).Supports ctx = false) :
    scanTransports ctx l = some (l.get ⟨i, hi⟩) := by
  induction l generalizing i with
  | nil => exact absurd hi (Nat.not_lt_zero _)
  | cons t rest ih =>
    cases i with
    | zero =>
      have h0 : t.Supports ctx = true := hsup
      simp [scanTransports, h0]
    | succ k =>
      have h0 : t.Supports ctx = false := hmin 0 (Nat.succ_pos k)
      have hk : k < rest.length := Nat.lt_of_succ_lt_succ hi
      have hrec := ih k hk hsup (fun j hj => hmin (j + 1) (Nat.succ_lt_succ hj))
      simp [scanTransports, h0, hrec]

/-- What the handler does once a transport is selected: one call of its Do
with the server executor, and no call of any other Do. -/
theorem Handler_doCalls_of_selected (s : Server) (ctx : RequestCtx) (t : Transport)
    (hsel : s.getTransport ctx = some t) :
    doCalls (s.Handler ctx).1.calls = [(t, s.exec)] := by
  unfold Server.Handler Server.handlerBody
  rw [hsel]
  cases hdo : t.Do ctx s.exec with
  | returned ctx1 => simp [hdo, Server.handlerDeferred, doCalls]
  | panicked ctx1 v =>
    by_cases hv : v = Value.nil
    · simp [hdo, Server.handlerDeferred, hv, doCalls]
    · simp [hdo, Server.handlerDeferred, hv, doCalls]

/-- What the handler does when no registered transport supports the request:
status 400, the transport-not-supported envelope appended to the body, no call
beyond the trace start, no panic left in flight. -/
theorem Handler_of_unsupported (s : Server) (ctx : RequestCtx)
    (hsel : s.getTransport ctx = none) :
    s.Handler ctx =
      (⟨(ctx.SetStatusCode 400).Write
          "\x7b\"errors\":[\x7b\"message\":\"transport not supported\"\x7d]\x7d",
        [Call.StartOperationTrace]⟩, none) := by
  unfold Server.Handler Server.handlerBody
  rw [hsel]
  rfl

/-- The JSON form of an envelope with one error. -/
theorem Marshal_single (e : gqlerror.Error) :
    json.Marshal { Errors := [e] } = Except.ok ("\x7b\"errors\":[\x7b\"message\":"
            ++ json.quote e.Message ++ "\x7d]\x7d") := by
  simp only [json.Marshal, json.marshalError, List.map, String.intercalate, String.intercalate.go]
  congr 1
  apply String.ext
  simp only [String.data_append, List.append_assoc]
  rfl

/-- What the handler does when the selected transport panics with a value that
is not nil. -/
theorem Handler_of_panic (s : Server) (ctx ctx1 : RequestCtx) (t : Transport) (v : Value)
    (hsel : s.getTransport ctx = some t)
    (hdo : t.Do ctx s.exec = DoResult.panicked ctx1 v) (hv : v ≠ Value.nil) :
    s.Handler ctx =
      (⟨(ctx1.SetStatusCode 422).Write
          ("\x7b\"errors\":[\x7b\"message\":"
            ++ json.quote (s.exec.PresentRecoveredError ctx1 v).Message ++ "\x7d]\x7d"),
        [Call.StartOperationTrace, Call.Do t s.exec, Call.PresentRecoveredError v]⟩,
        none) := by
  unfold Server.Handler Server.handlerBody
  rw [hsel]
  simp only [hdo, Server.handlerDeferred, if_neg hv, Marshal_single]
  rfl

/-- What the handler does when the selected transport returns. -/
theorem Handler_of_return (s : Server) (ctx ctx1 : RequestCtx) (t : Transport)
    (hsel : s.getTransport ctx = some t)
    (hdo : t.Do ctx s.exec = DoResult.returned ctx1) :
    s.Handler ctx = (⟨ctx1, [Call.StartOperationTrace, Call.Do t s.exec]⟩, none) := by
  unfold Server.Handler Server.handlerBody
  rw [hsel]
  simp only [hdo, Server.handlerDeferred]
  rfl

/-- The handler never leaves a panic in flight. -/
theorem Handler_returns (s : Server) (ctx : RequestCtx) : (s.Handler ctx).2 = none := by
  unfold Server.Handler
  rcases s.handlerBody ctx with ⟨r, _ | v⟩
  · rfl
  · by_cases hv : v = Value.nil
    · simp [Server.handlerDeferred, hv]
    · simp [Server.handlerDeferred, hv]

/-- What the handler does when the selected transport panics with the nil
value: recover ends the panic and nothing more is written. -/
theorem Handler_of_nil_panic (s : Server) (ctx ctx1 : RequestCtx) (t : Transport)
    (hsel : s.getTransport ctx = some t)
    (hdo : t.Do ctx s.exec = DoResult.panicked ctx1 Value.nil) :
    s.Handler ctx = (⟨ctx1, [Call.StartOperationTrace, Call.Do t s.exec]⟩, none) := by
  unfold Server.Handler Server.handlerBody
  rw [hsel]
  simp only [hdo, Server.handlerDeferred]
  rfl

/-- C1. With transports registered as A then B on a server that had none, and
both supporting the request, getTransport returns A and the handler calls Do
exactly once, on A with the request context and the server executor, and never
on B: the call log holds the one Do call on A, and the context the handler
ends with is the one that call of A.Do left (with the 422 envelope appended if
it panicked with a value other than nil).  More generally, for any server, the
transport at the least index whose Supports is true for the request is the one
selected, and the same holds of it. -/
theorem C1_first_supporting_transport_wins (s0 : Server) (A B : Transport)
    (ctx : RequestCtx) (h0 : s0.transports = [])
    (hA : A.Supports ctx = true) (_hB : B.Supports ctx = true) :
    (((s0.AddTransport A).AddTransport B).getTransport ctx = some A ∧
      doCalls (((s0.AddTransport A).AddTransport B).Handler ctx).1.calls
        = [(A, ((s0.AddTransport A).AddTransport B).exec)] ∧
      (∀ ctx1, A.Do ctx ((s0.AddTransport A).AddTransport B).exec = DoResult.returned ctx1 →
        ((s0.AddTransport A).AddTransport B).Handler ctx
          = (⟨ctx1, [Call.StartOperationTrace,
              Call.Do A ((s0.AddTransport A).AddTransport B).exec]⟩, none)) ∧
      (∀ ctx1 v, A.Do ctx ((s0.AddTransport A).AddTransport B).exec
          = DoResult.panicked ctx1 v → v ≠ Value.nil →
        ((s0.AddTransport A).AddTransport B).Handler ctx
          = (⟨(ctx1.SetStatusCode 422).Write
              ("\x7b\"errors\":[\x7b\"message\":"
                ++ json.quote (((s0.AddTransport A).AddTransport B).exec.PresentRecoveredError
                    ctx1 v).Message ++ "\x7d]\x7d"),
              [Call.StartOperationTrace,
                Call.Do A ((s0.AddTransport A).AddTransport B).exec,
                Call.PresentRecoveredError v]⟩, none)) ∧
      (∀ ctx1, A.Do ctx ((s0.AddTransport A).AddTransport B).exec
          = DoResult.panicked ctx1 Value.nil →
        ((s0.AddTransport A).AddTransport B).Handler ctx
          = (⟨ctx1, [Call.StartOperationTrace,
              Call.Do A ((s0.AddTransport A).AddTransport B).exec]⟩, none))) ∧
    (∀ (s : Server) (i : Nat) (hi : i < s.transports.length),
      (s.transports.get ⟨i, hi⟩).Supports ctx = true →
      (∀ j (hj : j < i), (s.transports.get ⟨j, Nat.lt_trans hj hi⟩).Supports ctx = false) →
      s.getTransport ctx = some (s.transports.get ⟨i, hi⟩) ∧
      doCalls (s.Handler ctx).1.calls = [(s.transports.get ⟨i, hi⟩, s.exec)] ∧
      (∀ ctx1, (s.transports.get ⟨i, hi⟩).Do ctx s.exec = DoResult.returned ctx1 →
        s.Handler ctx
          = (⟨ctx1, [Call.StartOperationTrace,
              Call.Do (s.transports.get ⟨i, hi⟩) s.exec]⟩, none)) ∧
      (∀ ctx1 v, (s.transports.get ⟨i, hi⟩).Do ctx s.exec = DoResult.panicked ctx1 v →
        v ≠ Value.nil →
        s.Handler ctx
          = (⟨(ctx1.SetStatusCode 422).Write
              ("\x7b\"errors\":[\x7b\"message\":"
                ++ json.quote (s.exec.PresentRecoveredError ctx1 v).Message ++ "\x7d]\x7d"),
              [Call.StartOperationTrace, Call.Do (s.transports.get ⟨i, hi⟩) s.exec,
                Call.PresentRecoveredError v]⟩, none)) ∧
      (∀ ctx1, (s.transports.get ⟨i, hi⟩).Do ctx s.exec = DoResult.panicked ctx1 Value.nil →
        s.Handler ctx
          = (⟨ctx1, [Call.StartOperationTrace,
              Call.Do (s.transports.get ⟨i, hi⟩) s.exec]⟩, none))) := by
  refine ⟨?_, ?_⟩
  · have hsel : ((s0.AddTransport A).AddTransport B).getTransport ctx = some A := by
      simp [Server.getTransport, Server.AddTransport, h0, scanTransports, hA]
    exact ⟨hsel, Handler_doCalls_of_selected _ ctx A hsel,
      fun ctx1 hdo => Handler_of_return _ ctx ctx1 A hsel hdo,
      fun ctx1 v hdo hv => Handler_of_panic _ ctx ctx1 A v hsel hdo hv,
      fun ctx1 hdo => Handler_of_nil_panic _ ctx ctx1 A hsel hdo⟩
  · intro s i hi hsup hmin
    have hsel : s.getTransport ctx = some (s.transports.get ⟨i, hi⟩) :=
      scanTransports_least ctx s.transports i hi hsup hmin
    exact ⟨hsel, Handler_doCalls_of_selected s ctx _ hsel,
      fun ctx1 hdo => Handler_of_return s ctx ctx1 _ hsel hdo,
      fun ctx1 v hdo hv => Handler_of_panic s ctx ctx1 _ v hsel hdo hv,
      fun ctx1 hdo => Handler_of_nil_panic s ctx ctx1 _ hsel hdo⟩

/-- C1 at a concrete server: A then B registered on a bare server, both
supporting the request; the response holds what A wrote and nothing of B. -/
theorem C1_first_supporting_transport_wins_witness :
    ((sample.bare.AddTransport sample.transportA).AddTransport sample.transportB).getTransport
        sample.ctx0 = some sample.transportA ∧
      doCalls (((sample.bare.AddTransport sample.transportA).AddTransport
          sample.transportB).Handler sample.ctx0).1.calls
        = [(sample.transportA,
            ((sample.bare.AddTransport sample.transportA).AddTransport sample.transportB).exec)] ∧
      (((sample.bare.AddTransport sample.transportA).AddTransport
          sample.transportB).Handler sample.ctx0).1.ctx.Response.Body = "A" :=
  have h := (C1_first_supporting_transport_wins sample.bare sample.transportA
    sample.transportB sample.ctx0 rfl rfl rfl).1
  ⟨h.1, h.2.1, by rw [h.2.2.1 (sample.ctx0.Write "A") rfl]; rfl⟩

/-- C2. When no registered transport supports the request (in particular when
none is registered), the handler sets status 400, writes exactly the envelope
with the one message transport not supported (no data field), makes no call of
any Do, and leaves no panic in flight. -/
theorem C2_no_transport_gives_400 (s : Server) (ctx : RequestCtx)
    (hnone : ∀ t ∈ s.transports, t.Supports ctx = false) :
    s.getTransport ctx = none ∧
    (s.Handler ctx).1.ctx.Response.StatusCode = 400 ∧
    (s.Handler ctx).1.ctx.Response.Body = ctx.Response.Body
      ++ "\x7b\"errors\":[\x7b\"message\":\"transport not supported\"\x7d]\x7d" ∧
    (ctx.Response.Body = "" → (s.Handler ctx).1.ctx.Response.Body
      = "\x7b\"errors\":[\x7b\"message\":\"transport not supported\"\x7d]\x7d") ∧
    (s.Handler ctx).1.calls = [Call.StartOperationTrace] ∧
    doCalls (s.Handler ctx).1.calls = [] ∧
    (s.Handler ctx).2 = none := by
  have hsel : s.getTransport ctx = none := (scanTransports_none_iff ctx s.transports).2 hnone
  rw [Handler_of_unsupported s ctx hsel]
  refine ⟨hsel, rfl, rfl, ?_, rfl, rfl, rfl⟩
  intro hb
  simp [RequestCtx.Write, RequestCtx.SetStatusCode, hb]

/-- C2 at a server with no transport registered. -/
theorem C2_no_transport_gives_400_witness :
    (sample.bare.Handler sample.ctx0).1.ctx.Response.StatusCode = 400 ∧
    (sample.bare.Handler sample.ctx0).1.ctx.Response.Body
      = "\x7b\"errors\":[\x7b\"message\":\"transport not supported\"\x7d]\x7d" ∧
    doCalls (sample.bare.Handler sample.ctx0).1.calls = [] :=
  have h := C2_no_transport_gives_400 sample.bare sample.ctx0
    (fun _ ht => absurd ht (List.not_mem_nil _))
  ⟨h.2.1, h.2.2.2.1 rfl, h.2.2.2.2.2.1⟩

/-- C3. When the selected transport panics in Do with a value that is not nil,
the handler leaves no panic in flight, hands the value to the executor
PresentRecoveredError, sets status 422 and writes the JSON form of the envelope
whose errors list is the one presented error; the server is untouched, so a
later request whose transport returns is handled in the usual way. -/
theorem C3_panic_is_recovered_as_422 (s : Server) (ctx ctx1 : RequestCtx) (t : Transport)
    (v : Value) (hsel : s.getTransport ctx = some t)
    (hdo : t.Do ctx s.exec = DoResult.panicked ctx1 v) (hv : v ≠ Value.nil) :
    (s.Handler ctx).2 = none ∧
    (s.Handler ctx).1.calls
      = [Call.StartOperationTrace, Call.Do t s.exec, Call.PresentRecoveredError v] ∧
    (s.Handler ctx).1.ctx.Response.StatusCode = 422 ∧
    (∃ b, json.Marshal { Errors := [s.exec.PresentRecoveredError ctx1 v] } = Except.ok b ∧
      b = "\x7b\"errors\":[\x7b\"message\":"
            ++ json.quote (s.exec.PresentRecoveredError ctx1 v).Message ++ "\x7d]\x7d" ∧
      (s.Handler ctx).1.ctx.Response.Body = ctx1.Response.Body ++ b) ∧
    (∀ (ctx2 ctx3 : RequestCtx) (t2 : Transport), s.getTransport ctx2 = some t2 →
      t2.Do ctx2 s.exec = DoResult.returned ctx3 →
      s.Handler ctx2 = (⟨ctx3, [Call.StartOperationTrace, Call.Do t2 s.exec]⟩, none)) := by
  rw [Handler_of_panic s ctx ctx1 t v hsel hdo hv]
  refine ⟨rfl, rfl, rfl, ⟨_, Marshal_single _, rfl, rfl⟩, ?_⟩
  · intro ctx2 ctx3 t2 h2 hd2
    exact Handler_of_return s ctx2 ctx3 t2 h2 hd2

/-- C3 at a server whose one transport panics with the string boom. -/
theorem C3_panic_is_recovered_as_422_witness :
    ((sample.bare.AddTransport sample.transportBoom).Handler sample.ctx0).2 = none ∧
    ((sample.bare.AddTransport sample.transportBoom).Handler sample.ctx0).1.ctx.Response.StatusCode
      = 422 ∧
    ((sample.bare.AddTransport sample.transportBoom).Handler sample.ctx0).1.ctx.Response.Body
      = "\x7b\"errors\":[\x7b\"message\":\"boom\"\x7d]\x7d" :=
  have h := C3_panic_is_recovered_as_422 (sample.bare.AddTransport sample.transportBoom)
    sample.ctx0 sample.ctx0 sample.transportBoom (Value.str "boom") rfl rfl (by decide)
  ⟨h.1, h.2.2.1, rfl⟩

/-- C7. For each of the adapter types FieldFunc, OperationFunc and
ResponseFunc and every schema, Validate returns an error that is not nil
exactly when the function value is nil, and the error then carries the message
naming the type. -/
theorem C7_validate_rejects_exactly_nil (schema : ExecutableSchema) :
    (∀ f : FieldFunc, (f.Validate schema ≠ none ↔ f = none) ∧
      (f = none → f.Validate schema = some "FieldFunc can not be nil")) ∧
    (∀ r : OperationFunc, (r.Validate schema ≠ none ↔ r = none) ∧
      (r = none → r.Validate schema = some "OperationFunc can not be nil")) ∧
    (∀ r : ResponseFunc, (r.Validate schema ≠ none ↔ r = none) ∧
      (r = none → r.Validate schema = some "ResponseFunc can not be nil")) := by
  refine ⟨?_, ?_, ?_⟩
  · intro f
    cases f <;> simp [FieldFunc.Validate, fmt.Errorf]
  · intro r
    cases r <;> simp [OperationFunc.Validate, fmt.Errorf]
  · intro r
    cases r <;> simp [ResponseFunc.Validate, fmt.Errorf]

/-- C8. New gives a server with an empty transport list around a fresh
executor for the schema; NewDefaultServer gives the transport list Websocket
(keep-alive ping interval ten seconds), Options, GET, POST, MultipartForm in
this order, a query cache of capacity 1000, and the extensions Introspection
and AutomaticPersistedQuery (cache capacity 100) in this order. -/
theorem C8_constructors (pkg : transport.Package)
    (present : RequestCtx → Value → gqlerror.Error) (es : ExecutableSchema) :
    (New present es).transports = [] ∧
    (New present es).exec = executor.New present es ∧
    (NewDefaultServer pkg present es).transports
      = [pkg.Websocket (10 * time.Second), pkg.Options, pkg.GET, pkg.POST, pkg.MultipartForm] ∧
    10 * time.Second = (10000000000 : Int) ∧
    (NewDefaultServer pkg present es).exec.es = es ∧
    (NewDefaultServer pkg present es).exec.queryCache = some (lru.New 1000) ∧
    (lru.New 1000).capacity = 1000 ∧
    (NewDefaultServer pkg present es).exec.extensions
      = [HandlerExtension.Introspection, HandlerExtension.AutomaticPersistedQuery (lru.New 100)] ∧
    (lru.New 100).capacity = 100 := by
  refine ⟨rfl, rfl, rfl, by decide, rfl, rfl, rfl, rfl, rfl⟩

/-- C10. AddTransport appends the transport and keeps the executor; a request
that selected a transport before the call selects the same one after it, and a
request that selected none selects the new transport exactly when that one
supports it. -/
theorem C10_AddTransport_appends (s : Server) (u : Transport) (ctx : RequestCtx) :
    (s.AddTransport u).transports = s.transports ++ [u] ∧
    (s.AddTransport u).exec = s.exec ∧
    (∀ t, s.getTransport ctx = some t → (s.AddTransport u).getTransport ctx = some t) ∧
    (s.getTransport ctx = none →
      ((s.AddTransport u).getTransport ctx = some u ↔ u.Supports ctx = true)) ∧
    (s.getTransport ctx = none → u.Supports ctx = false →
      (s.AddTransport u).getTransport ctx = none) := by
  refine ⟨rfl, rfl, ?_, ?_, ?_⟩
  · intro t ht
    have ht2 : scanTransports ctx s.transports = some t := ht
    simp [Server.getTransport, Server.AddTransport, scanTransports_append, ht2]
  · intro hn
    have hn2 : scanTransports ctx s.transports = none := hn
    by_cases hu : u.Supports ctx = true
    · simp [Server.getTransport, Server.AddTransport, scanTransports_append, hn2,
        scanTransports, hu]
    · have hu2 : u.Supports ctx = false := by simpa using hu
      simp [Server.getTransport, Server.AddTransport, scanTransports_append, hn2,
        scanTransports, hu2]
  · intro hn hu
    have hn2 : scanTransports ctx s.transports = none := hn
    simp [Server.getTransport, Server.AddTransport, scanTransports_append, hn2,
      scanTransports, hu]

/-- C10 at concrete servers: a transport already selected stays selected, and
on a bare server a supporting transport becomes the selected one. -/
theorem C10_AddTransport_appends_witness :
    ((sample.bare.AddTransport sample.transportA).AddTransport sample.transportB).getTransport
        sample.ctx0 = some sample.transportA ∧
    (sample.bare.AddTransport sample.transportB).getTransport sample.ctx0
      = some sample.transportB ∧
    (sample.bare.AddTransport sample.transportNever).getTransport sample.ctx0 = none :=
  ⟨(C10_AddTransport_appends (sample.bare.AddTransport sample.transportA) sample.transportB
      sample.ctx0).2.2.1 sample.transportA rfl,
    ((C10_AddTransport_appends sample.bare sample.transportB sample.ctx0).2.2.2.1 rfl).2 rfl,
    (C10_AddTransport_appends sample.bare sample.transportNever sample.ctx0).2.2.2.2 rfl rfl⟩

end handler

/-! ## Theorems: the client options -/

namespace options

open fasthttp

theorem valuesOf_append (k : String) (l1 l2 : List argsKV) :
    valuesOf k (l1 ++ l2) = valuesOf k l1 ++ valuesOf k l2 := by
  simp [valuesOf]

theorem valuesOf_setArg_same (k v : String) (l : List argsKV) :
    valuesOf k (setArg l k v) = v :: (valuesOf k l).tail := by
  induction l with
  | nil => simp [setArg, appendArg, valuesOf]
  | cons kv rest ih =>
    by_cases h : k = kv.key
    · subst h
      simp [setArg, valuesOf]
    · have h2 : ¬ kv.key = k := fun e => h e.symm
      have ih2 : List.map (fun kv => kv.value)
          (List.filter (fun kv => decide (kv.key = k)) (setArg rest k v))
          = v :: (List.map (fun kv => kv.value)
              (List.filter (fun kv => decide (kv.key = k)) rest)).tail := ih
      simp [setArg, valuesOf, h, h2, ih2]

theorem filter_ne_setArg (k v : String) (l : List argsKV) :
    (setArg l k v).filter (fun kv => decide (kv.key ≠ k))
      = l.filter (fun kv => decide (kv.key ≠ k)) := by
  induction l with
  | nil => simp [setArg, appendArg]
  | cons kv rest ih =>
    by_cases h : k = kv.key
    · subst h
      simp [setArg]
    · have h2 : ¬ kv.key = k := fun e => h e.symm
      have ih2 : List.filter (fun kv => !decide (kv.key = k)) (setArg rest k v)
          = List.filter (fun kv => !decide (kv.key = k)) rest := by simpa using ih
      simp [setArg, h, h2, ih2]

theorem applyCalls_snoc (calls : List client.OptionCall) (c : client.OptionCall)
    (bd : client.Request) :
    client.applyCalls (calls ++ [c]) bd = c.option (client.applyCalls calls bd) := by
  simp [client.applyCalls, List.foldl_append]

theorem addedHeaders_append (l1 l2 : List client.OptionCall) :
    addedHeaders (l1 ++ l2) = addedHeaders l1 ++ addedHeaders l2 := by
  induction l1 with
  | nil => rfl
  | cons c rest ih => cases c <;> simp [addedHeaders, ih]

theorem lastBasicAuth_snoc (l : List client.OptionCall) (c : client.OptionCall) :
    lastBasicAuth (l ++ [c])
      = match c with
        | .BasicAuth username password => some (username, password)
        | _ => lastBasicAuth l := by
  induction l with
  | nil => cases c <;> rfl
  | cons d rest ih =>
    cases c <;> simp [lastBasicAuth, ih]

/-- The Authorization key is in canonical form already. -/
theorem normalize_Authorization : normalizeHeaderKey "Authorization" = "Authorization" := by
  decide

/-- The effect of one option on the stored header list. -/
theorem h_after_option (c : client.OptionCall) (bd : client.Request) :
    (c.option bd).HTTP.Header.h
      = match c with
        | .AddHeader key value => bd.HTTP.Header.h ++ [⟨normalizeHeaderKey key, value⟩]
        | .BasicAuth username password =>
          setArg bd.HTTP.Header.h "Authorization"
            ("Basic " ++ client.basicAuth username password)
        | .AddCookie _ _ => bd.HTTP.Header.collectCookies.h
        | _ => bd.HTTP.Header.h := by
  cases c <;> first
    | rfl
    | (simp only [client.OptionCall.option, client.Var]; cases bd.Variables <;> rfl)

/-- Once collected, the flag is set. -/
theorem collectCookies_collected (hd : RequestHeader) :
    hd.collectCookies.cookiesCollected = true := by
  unfold RequestHeader.collectCookies
  by_cases h : hd.cookiesCollected = true
  · simp [h]
  · simp [h]

/-- On a header whose flag is set, collectCookies changes nothing. -/
theorem collectCookies_of_collected (hd : RequestHeader) (h : hd.cookiesCollected = true) :
    hd.collectCookies = hd := by
  simp [RequestHeader.collectCookies, h]

/-- On a header list without Cookie header, collectCookies leaves h alone. -/
theorem collectCookies_h_of_no_Cookie (hd : RequestHeader)
    (hno : ∀ kv ∈ hd.h, kv.key ≠ "Cookie") : hd.collectCookies.h = hd.h := by
  unfold RequestHeader.collectCookies
  by_cases h : hd.cookiesCollected = true
  · simp [h]
  · simp only [h]
    simp only [Bool.false_eq_true, if_false]
    exact List.filter_eq_self.2 (fun kv hkv => by simpa using hno kv hkv)

/-- An entry of the list setArg returns has the given key or stood in the list
before. -/
theorem mem_setArg (l : List argsKV) (k v : String) (kv : argsKV)
    (hmem : kv ∈ setArg l k v) : kv.key = k ∨ kv ∈ l := by
  induction l with
  | nil =>
    simp [setArg, appendArg] at hmem
    exact Or.inl (by rw [hmem])
  | cons x rest ih =>
    by_cases h : k = x.key
    · simp only [setArg, if_pos h, List.mem_cons] at hmem
      rcases hmem with h1 | h1
      · exact Or.inl (by rw [h1]; exact h.symm)
      · exact Or.inr (List.mem_cons_of_mem _ h1)
    · simp only [setArg, if_neg h, List.mem_cons] at hmem
      rcases hmem with h1 | h1
      · exact Or.inr (by rw [h1]; exact List.mem_cons_self _ _)
      · rcases ih h1 with h2 | h2
        · exact Or.inl h2
        · exact Or.inr (List.mem_cons_of_mem _ h2)

/-- No option other than an AddHeader call for Cookie puts a Cookie header
into h. -/
theorem no_Cookie_after_option (c : client.OptionCall) (bd : client.Request)
    (hbd : ∀ kv ∈ bd.HTTP.Header.h, kv.key ≠ "Cookie") (hc : namesCookie c = false) :
    ∀ kv ∈ (c.option bd).HTTP.Header.h, kv.key ≠ "Cookie" := by
  intro kv hkv
  rw [h_after_option] at hkv
  cases c with
  | AddHeader key value =>
    simp only [List.mem_append, List.mem_singleton] at hkv
    rcases hkv with h1 | h1
    · exact hbd kv h1
    · rw [h1]
      simpa [namesCookie] using hc
  | BasicAuth username password =>
    simp only at hkv
    rcases mem_setArg _ _ _ kv hkv with h1 | h1
    · rw [h1]; decide
    · exact hbd kv h1
  | AddCookie key value =>
    simp only at hkv
    rw [collectCookies_h_of_no_Cookie _ hbd] at hkv
    exact hbd kv hkv
  | Var name value => exact hbd kv hkv
  | Operation name => exact hbd kv hkv
  | Path url => exact hbd kv hkv

/-- A call sequence without AddHeader call for Cookie leaves h without Cookie
header. -/
theorem no_Cookie_after_calls (calls : List client.OptionCall) (bd : client.Request)
    (hbd : ∀ kv ∈ bd.HTTP.Header.h, kv.key ≠ "Cookie")
    (hck : ∀ c ∈ calls, namesCookie c = false) :
    ∀ kv ∈ (client.applyCalls calls bd).HTTP.Header.h, kv.key ≠ "Cookie" := by
  induction calls using List.reverseRecOn with
  | nil => exact hbd
  | append_singleton l c ih =>
    rw [applyCalls_snoc]
    exact no_Cookie_after_option c _
      (ih (fun d hd => hck d (List.mem_append_left _ hd)))
      (hck c (List.mem_append_right _ (List.mem_singleton_self c)))

/-- The effect of one option on a stored header list without Cookie header. -/
theorem h_after_option_of_no_Cookie (c : client.OptionCall) (bd : client.Request)
    (hbd : ∀ kv ∈ bd.HTTP.Header.h, kv.key ≠ "Cookie") :
    (c.option bd).HTTP.Header.h
      = match c with
        | .AddHeader key value => bd.HTTP.Header.h ++ [⟨normalizeHeaderKey key, value⟩]
        | .BasicAuth username password =>
          setArg bd.HTTP.Header.h "Authorization"
            ("Basic " ++ client.basicAuth username password)
        | _ => bd.HTTP.Header.h := by
  rw [h_after_option]
  cases c <;> first
    | rfl
    | exact collectCookies_h_of_no_Cookie _ hbd

/-- Every six-bit group is written with a character of the standard alphabet. -/
theorem digit_mem (n : Nat) : base64.digit n ∈ base64.encodeStd := by
  have h : ∀ m, m < 64 → base64.encodeStd.getD m 'A' ∈ base64.encodeStd := by decide
  exact h (n % 64) (Nat.mod_lt n (by decide))

/-- The encoding has four characters for every group of up to three bytes. -/
theorem encode_length (src : List Nat) :
    (base64.encode src).length = 4 * ((src.length + 2) / 3) := by
  induction src using base64.encode.induct with
  | case1 => rfl
  | case2 a => simp [base64.encode]
  | case3 a b => simp [base64.encode]
  | case4 a b c rest ih =>
    simp only [base64.encode, List.length_cons, ih]
    omega

/-- The encoding is written in the standard alphabet and the padding character. -/
theorem encode_alphabet (src : List Nat) :
    ∀ ch ∈ base64.encode src, ch ∈ base64.encodeStd ∨ ch = base64.StdPadding := by
  induction src using base64.encode.induct with
  | case1 => simp [base64.encode]
  | case2 a =>
    intro ch hch
    simp only [base64.encode, List.mem_cons, List.mem_nil_iff, or_false] at hch
    rcases hch with h | h | h | h
    · exact Or.inl (h ▸ digit_mem _)
    · exact Or.inl (h ▸ digit_mem _)
    · exact Or.inr h
    · exact Or.inr h
  | case3 a b =>
    intro ch hch
    simp only [base64.encode, List.mem_cons, List.mem_nil_iff, or_false] at hch
    rcases hch with h | h | h | h
    · exact Or.inl (h ▸ digit_mem _)
    · exact Or.inl (h ▸ digit_mem _)
    · exact Or.inl (h ▸ digit_mem _)
    · exact Or.inr h
  | case4 a b c rest ih =>
    intro ch hch
    simp only [base64.encode, List.mem_cons] at hch
    rcases hch with h | h | h | h | h
    · exact Or.inl (h ▸ digit_mem _)
    · exact Or.inl (h ▸ digit_mem _)
    · exact Or.inl (h ▸ digit_mem _)
    · exact Or.inl (h ▸ digit_mem _)
    · exact ih ch h

/-- The encoder on the test vectors of RFC 4648. -/
theorem encode_rfc4648_vectors :
    base64.StdEncoding.EncodeToString (bytes "") = "" ∧
    base64.StdEncoding.EncodeToString (bytes "f") = "Zg==" ∧
    base64.StdEncoding.EncodeToString (bytes "fo") = "Zm8=" ∧
    base64.StdEncoding.EncodeToString (bytes "foo") = "Zm9v" ∧
    base64.StdEncoding.EncodeToString (bytes "foob") = "Zm9vYg==" ∧
    base64.StdEncoding.EncodeToString (bytes "fooba") = "Zm9vYmE=" ∧
    base64.StdEncoding.EncodeToString (bytes "foobar") = "Zm9vYmFy" := by
  decide

/-- The Authorization values after BasicAuth: the Basic value first, then the
values that stood after the first one before. -/
theorem PeekAll_after_BasicAuth (username password : String) (bd : client.Request) :
    (client.BasicAuth username password bd).HTTP.Header.PeekAll "Authorization"
      = ("Basic " ++ client.basicAuth username password)
          :: (bd.HTTP.Header.PeekAll "Authorization").tail := by
  simp only [client.BasicAuth, client.SetBasicAuth, RequestHeader.Set, RequestHeader.PeekAll,
    normalize_Authorization]
  exact valuesOf_setArg_same _ _ _

/-- C4, amended. BasicAuth applied to a request that holds at most one
Authorization value leaves exactly one, the text Basic and a blank followed by
the standard-alphabet, padded base64 encoding of the bytes of the user name, a
colon and the password; on any request it puts that value in the place of the
first Authorization value and keeps the later ones.  For alice and secret the
value is Basic YWxpY2U6c2VjcmV0. -/
theorem C4_BasicAuth_rewrites_first_Authorization (username password : String)
    (bd : client.Request) (hone : (bd.HTTP.Header.PeekAll "Authorization").length ≤ 1) :
    (client.BasicAuth username password bd).HTTP.Header.PeekAll "Authorization"
      = ["Basic " ++ base64.StdEncoding.EncodeToString (bytes (username ++ ":" ++ password))] ∧
    (∀ bd2 : client.Request,
      (client.BasicAuth username password bd2).HTTP.Header.PeekAll "Authorization"
        = ("Basic " ++ base64.StdEncoding.EncodeToString (bytes (username ++ ":" ++ password)))
            :: (bd2.HTTP.Header.PeekAll "Authorization").tail) ∧
    (base64.StdEncoding.EncodeToString (bytes (username ++ ":" ++ password))).data.length
      = 4 * (((bytes (username ++ ":" ++ password)).length + 2) / 3) ∧
    (∀ ch ∈ (base64.StdEncoding.EncodeToString (bytes (username ++ ":" ++ password))).data,
      ch ∈ base64.encodeStd ∨ ch = '=') ∧
    (client.BasicAuth "alice" "secret" bd).HTTP.Header.PeekAll "Authorization"
      = ["Basic YWxpY2U6c2VjcmV0"] := by
  have htail : (bd.HTTP.Header.PeekAll "Authorization").tail = [] := by
    cases hl : bd.HTTP.Header.PeekAll "Authorization" with
    | nil => rfl
    | cons x rest =>
      rw [hl] at hone
      cases rest with
      | nil => rfl
      | cons y more => simp at hone
  refine ⟨?_, ?_, ?_, ?_, ?_⟩
  · rw [PeekAll_after_BasicAuth, htail]
    rfl
  · intro bd2
    rw [PeekAll_after_BasicAuth]
    rfl
  · exact encode_length _
  · exact encode_alphabet _
  · rw [PeekAll_after_BasicAuth, htail]
    rfl

/-- C4 at a request that already holds one Authorization value. -/
theorem C4_BasicAuth_rewrites_first_Authorization_witness :
    (client.BasicAuth "alice" "secret"
        (client.AddHeader "authorization" "old" client.Request.fresh)).HTTP.Header.PeekAll
          "Authorization" = ["Basic YWxpY2U6c2VjcmV0"] :=
  (C4_BasicAuth_rewrites_first_Authorization "alice" "secret"
    (client.AddHeader "authorization" "old" client.Request.fresh) (by decide)).2.2.2.2

/-- C4 fails as stated: on a request that holds two Authorization values,
BasicAuth leaves two, the second one untouched. -/
theorem C4_counterexample_two_prior_values :
    (client.BasicAuth "alice" "secret"
        (client.AddHeader "Authorization" "b"
          (client.AddHeader "Authorization" "a" client.Request.fresh))).HTTP.Header.PeekAll
            "Authorization" = ["Basic YWxpY2U6c2VjcmV0", "b"] := by
  decide

/-- C5. Var applied twice with one name to a fresh request leaves a map that
holds the second value under the name and no other key; Var applied to any
request yields a map (made if it was nil) that holds the value under the name
and is unchanged at every other key, and leaves the rest of the request alone. -/
theorem C5_Var_last_write_wins (name : String) (v1 v2 v : Value) (bd : client.Request) :
    (∃ m, (client.Var name v2 (client.Var name v1 client.Request.fresh)).Variables = some m ∧
      m name = some v2 ∧ ∀ k, k ≠ name → m k = none) ∧
    (∃ m, (client.Var name v bd).Variables = some m ∧ m name = some v ∧
      (∀ k, k ≠ name → m k = match bd.Variables with
                              | none => none
                              | some m0 => m0 k)) ∧
    (client.Var name v bd).Query = bd.Query ∧
    (client.Var name v bd).OperationName = bd.OperationName ∧
    (client.Var name v bd).HTTP = bd.HTTP := by
  refine ⟨⟨_, rfl, ?_, ?_⟩, ?_, ?_, ?_, ?_⟩
  · simp [client.Map.set]
  · intro k hk
    simp [client.Map.set, client.Map.empty, hk]
  · cases hv : bd.Variables with
    | none =>
      refine ⟨client.Map.set client.Map.empty name v, ?_, ?_, ?_⟩
      · simp [client.Var, hv]
      · simp [client.Map.set]
      · intro k hk
        simp [client.Map.set, client.Map.empty, hk]
    | some m0 =>
      refine ⟨client.Map.set m0 name v, ?_, ?_, ?_⟩
      · simp [client.Var, hv]
      · simp [client.Map.set]
      · intro k hk
        simp [client.Map.set, hk]
  · cases hv : bd.Variables <;> simp [client.Var, hv]
  · cases hv : bd.Variables <;> simp [client.Var, hv]
  · cases hv : bd.Variables <;> simp [client.Var, hv]

/-- The cookie list after two SetCookie calls: the cookies are collected once,
then setArg is applied twice. -/
theorem cookies_after_two_SetCookie (hd : RequestHeader) (key v1 v2 : String) :
    ((hd.SetCookie key v1).SetCookie key v2).cookies
      = setArg (setArg hd.collectCookies.cookies key v1) key v2 := by
  have hflag : (hd.SetCookie key v1).cookiesCollected = true := by
    simp [RequestHeader.SetCookie, collectCookies_collected]
  have hsame : (hd.SetCookie key v1).collectCookies = hd.SetCookie key v1 :=
    collectCookies_of_collected _ hflag
  have h2 : ((hd.SetCookie key v1).SetCookie key v2).cookies
      = setArg (hd.SetCookie key v1).collectCookies.cookies key v2 := rfl
  rw [h2, hsame]
  rfl

/-- C9, amended. AddCookie applied twice with one name to a request that holds
at most one cookie of that name (the cookies of a Cookie header not yet moved
into the cookie list counted in) leaves exactly one, with the second value, and
leaves the cookies of other names as they were; on any request the second
value takes the place of the first cookie of that name and the later ones
stay.  AddHeader applied twice with one name keeps both values, after those
already there. -/
theorem C9_AddCookie_last_set_wins (key v1 v2 : String) (bd : client.Request)
    (hone : (valuesOf key bd.HTTP.Header.collectCookies.cookies).length ≤ 1) :
    valuesOf key (client.AddCookie key v2 (client.AddCookie key v1 bd)).HTTP.Header.cookies
      = [v2] ∧
    (client.AddCookie key v2 (client.AddCookie key v1 bd)).HTTP.Header.cookies.filter
        (fun kv => decide (kv.key ≠ key))
      = bd.HTTP.Header.collectCookies.cookies.filter (fun kv => decide (kv.key ≠ key)) ∧
    (∀ bd2 : client.Request,
      valuesOf key (client.AddCookie key v2 (client.AddCookie key v1 bd2)).HTTP.Header.cookies
        = v2 :: (valuesOf key bd2.HTTP.Header.collectCookies.cookies).tail) ∧
    (client.AddHeader key v2 (client.AddHeader key v1 bd)).HTTP.Header.PeekAll key
      = bd.HTTP.Header.PeekAll key ++ [v1, v2] := by
  have hcookies : ∀ bd2 : client.Request,
      (client.AddCookie key v2 (client.AddCookie key v1 bd2)).HTTP.Header.cookies
        = setArg (setArg bd2.HTTP.Header.collectCookies.cookies key v1) key v2 :=
    fun bd2 => cookies_after_two_SetCookie bd2.HTTP.Header key v1 v2
  have hgen : ∀ bd2 : client.Request,
      valuesOf key (client.AddCookie key v2 (client.AddCookie key v1 bd2)).HTTP.Header.cookies
        = v2 :: (valuesOf key bd2.HTTP.Header.collectCookies.cookies).tail := by
    intro bd2
    rw [hcookies bd2, valuesOf_setArg_same, valuesOf_setArg_same]
    rfl
  have htail : (valuesOf key bd.HTTP.Header.collectCookies.cookies).tail = [] := by
    cases hl : valuesOf key bd.HTTP.Header.collectCookies.cookies with
    | nil => rfl
    | cons x rest =>
      rw [hl] at hone
      cases rest with
      | nil => rfl
      | cons y more => simp at hone
  refine ⟨?_, ?_, hgen, ?_⟩
  · rw [hgen bd, htail]
  · rw [hcookies bd, filter_ne_setArg, filter_ne_setArg]
  · simp [client.AddHeader, RequestHeader.Add, RequestHeader.PeekAll, appendArg, valuesOf]

/-- C9 at a fresh request given the Cookie header x=1; k=0: the two AddCookie
calls for k leave the one cookie k=2, the cookie x=1 stays, and two AddHeader
calls for one name keep both values. -/
theorem C9_AddCookie_last_set_wins_witness :
    valuesOf "k" (client.AddCookie "k" "2"
        (client.AddCookie "k" "1" sample.mixedCookies)).HTTP.Header.cookies = ["2"] ∧
    (client.AddCookie "k" "2"
        (client.AddCookie "k" "1" sample.mixedCookies)).HTTP.Header.cookies
      = [⟨"x", "1"⟩, ⟨"k", "2"⟩] ∧
    (client.AddHeader "k" "2" (client.AddHeader "k" "1" sample.mixedCookies)).HTTP.Header.PeekAll
        "k" = ["1", "2"] :=
  have h := C9_AddCookie_last_set_wins "k" "1" "2" sample.mixedCookies (by decide)
  ⟨h.1, by decide, h.2.2.2⟩

/-- C9 fails as stated: on a fresh request given the Cookie header k=a; k=b,
two AddCookie calls for k leave two cookies named k, the second one untouched. -/
theorem C9_counterexample_two_prior_cookies :
    (client.AddCookie "k" "2"
        (client.AddCookie "k" "1" sample.twoCookies)).HTTP.Header.cookies
      = [⟨"k", "2"⟩, ⟨"k", "b"⟩] ∧
    valuesOf "k" (client.AddCookie "k" "2"
        (client.AddCookie "k" "1" sample.twoCookies)).HTTP.Header.cookies = ["2", "b"] := by
  decide

/-- Without a BasicAuth call and without AddHeader call for Cookie the stored
headers grow by the AddHeader pairs. -/
theorem h_applyCalls_of_no_BasicAuth (calls : List client.OptionCall) (bd : client.Request)
    (hbd : ∀ kv ∈ bd.HTTP.Header.h, kv.key ≠ "Cookie")
    (hck : ∀ c ∈ calls, namesCookie c = false)
    (hno : lastBasicAuth calls = none) :
    (client.applyCalls calls bd).HTTP.Header.h = bd.HTTP.Header.h ++ addedHeaders calls := by
  induction calls using List.reverseRecOn with
  | nil => simp [client.applyCalls, addedHeaders]
  | append_singleton l c ih =>
    have hckl : ∀ d ∈ l, namesCookie d = false :=
      fun d hd => hck d (List.mem_append_left _ hd)
    have hnc := no_Cookie_after_calls l bd hbd hckl
    rw [lastBasicAuth_snoc] at hno
    rw [applyCalls_snoc, h_after_option_of_no_Cookie _ _ hnc, addedHeaders_append]
    cases c with
    | BasicAuth username password => simp at hno
    | AddHeader key value =>
      simp only at hno
      simp [ih hckl hno, addedHeaders]
    | Var name value => simp only at hno; simp [ih hckl hno, addedHeaders]
    | Operation name => simp only at hno; simp [ih hckl hno, addedHeaders]
    | Path url => simp only at hno; simp [ih hckl hno, addedHeaders]
    | AddCookie key value => simp only at hno; simp [ih hckl hno, addedHeaders]

/-- The stored headers under names other than Authorization grow by the
AddHeader pairs of those names, when no AddHeader call is for Cookie. -/
theorem h_applyCalls_other_names (calls : List client.OptionCall) (bd : client.Request)
    (hbd : ∀ kv ∈ bd.HTTP.Header.h, kv.key ≠ "Cookie")
    (hck : ∀ c ∈ calls, namesCookie c = false) :
    (client.applyCalls calls bd).HTTP.Header.h.filter
        (fun kv => decide (kv.key ≠ "Authorization"))
      = bd.HTTP.Header.h.filter (fun kv => decide (kv.key ≠ "Authorization"))
        ++ (addedHeaders calls).filter (fun kv => decide (kv.key ≠ "Authorization")) := by
  induction calls using List.reverseRecOn with
  | nil => simp [client.applyCalls, addedHeaders]
  | append_singleton l c ih =>
    have hckl : ∀ d ∈ l, namesCookie d = false :=
      fun d hd => hck d (List.mem_append_left _ hd)
    have hnc := no_Cookie_after_calls l bd hbd hckl
    have ih2 := ih hckl
    rw [applyCalls_snoc, h_after_option_of_no_Cookie _ _ hnc, addedHeaders_append]
    cases c with
    | BasicAuth username password =>
      simp only [filter_ne_setArg, ih2]
      simp [addedHeaders]
    | AddHeader key value =>
      simp only [List.filter_append, ih2, List.append_assoc]
      rfl
    | Var name value => simp only [ih2]; simp [addedHeaders]
    | Operation name => simp only [ih2]; simp [addedHeaders]
    | Path url => simp only [ih2]; simp [addedHeaders]
    | AddCookie key value => simp only [ih2]; simp [addedHeaders]

/-- The Authorization values once a BasicAuth has been applied: first the
value of the last BasicAuth, then what stood after the first value before that
BasicAuth, then the values of the later AddHeader calls for the name. -/
theorem auth_values_after_BasicAuth (post : List client.OptionCall) (username password : String)
    (bd : client.Request)
    (hbd : ∀ kv ∈ bd.HTTP.Header.h, kv.key ≠ "Cookie")
    (hck : ∀ c ∈ post, namesCookie c = false) :
    valuesOf "Authorization"
        (client.applyCalls post (client.BasicAuth username password bd)).HTTP.Header.h
      = ("Basic " ++ client.basicAuth ((lastBasicAuth post).getD (username, password)).1
            ((lastBasicAuth post).getD (username, password)).2)
          :: ((valuesOf "Authorization" bd.HTTP.Header.h).tail
                ++ valuesOf "Authorization" (addedHeaders post)) := by
  have hbd2 : ∀ kv ∈ (client.BasicAuth username password bd).HTTP.Header.h,
      kv.key ≠ "Cookie" :=
    no_Cookie_after_option (client.OptionCall.BasicAuth username password) bd hbd rfl
  induction post using List.reverseRecOn with
  | nil =>
    have h := PeekAll_after_BasicAuth username password bd
    simp only [RequestHeader.PeekAll, normalize_Authorization] at h
    have e1 : client.applyCalls [] (client.BasicAuth username password bd)
        = client.BasicAuth username password bd := rfl
    have e2 : valuesOf "Authorization" (addedHeaders []) = [] := rfl
    rw [e1, e2, h, List.append_nil]
    rfl
  | append_singleton l c ih =>
    have hckl : ∀ d ∈ l, namesCookie d = false :=
      fun d hd => hck d (List.mem_append_left _ hd)
    have hnc := no_Cookie_after_calls l _ hbd2 hckl
    have ih2 := ih hckl
    rw [applyCalls_snoc, h_after_option_of_no_Cookie _ _ hnc, addedHeaders_append,
      lastBasicAuth_snoc]
    cases c with
    | BasicAuth u2 p2 =>
      simp only [valuesOf_setArg_same, ih2, List.tail_cons, Option.getD_some]
      simp [addedHeaders, valuesOf]
    | AddHeader key value =>
      simp only [valuesOf_append, ih2]
      simp [addedHeaders]
    | Var name value => simp only [ih2]; simp [addedHeaders, valuesOf]
    | Operation name => simp only [ih2]; simp [addedHeaders, valuesOf]
    | Path url => simp only [ih2]; simp [addedHeaders, valuesOf]
    | AddCookie key value => simp only [ih2]; simp [addedHeaders, valuesOf]

theorem applyCalls_append (l1 l2 : List client.OptionCall) (bd : client.Request) :
    client.applyCalls (l1 ++ l2) bd = client.applyCalls l2 (client.applyCalls l1 bd) := by
  simp [client.applyCalls, List.foldl_append]

theorem lastBasicAuth_append_cons (pre post : List client.OptionCall)
    (username password : String) :
    lastBasicAuth (pre ++ client.OptionCall.BasicAuth username password :: post)
      = some ((lastBasicAuth post).getD (username, password)) := by
  induction pre with
  | nil =>
    cases h : lastBasicAuth post <;> simp [lastBasicAuth, h]
  | cons c rest ih => simp [lastBasicAuth, ih]

/-- C6, amended. For every sequence of options without AddHeader call for the
Cookie header, applied in order to a fresh request: the stored headers under
names other than Authorization are exactly the pairs (canonical name, value)
of the AddHeader calls, in call order and with multiplicity; without a
BasicAuth call the same holds for all names; with a BasicAuth call, the first
Authorization value is the one of the last BasicAuth, and the Authorization
values after it are those of the AddHeader calls for the name, in order, less
the one that stood first when the first BasicAuth was applied.  BasicAuth thus
overwrites the first prior value only.  (A Cookie header given through
AddHeader is moved into the cookie list by a later AddCookie.) -/
theorem C6_headers_of_option_sequence (calls : List client.OptionCall)
    (hck : ∀ c ∈ calls, namesCookie c = false) :
    ((client.applyCalls calls client.Request.fresh).HTTP.Header.h.filter
        (fun kv => decide (kv.key ≠ "Authorization"))
      = (addedHeaders calls).filter (fun kv => decide (kv.key ≠ "Authorization"))) ∧
    (lastBasicAuth calls = none →
      (client.applyCalls calls client.Request.fresh).HTTP.Header.h = addedHeaders calls) ∧
    (∀ (pre post : List client.OptionCall) (username password : String),
      calls = pre ++ client.OptionCall.BasicAuth username password :: post →
      lastBasicAuth pre = none →
      ∃ u2 p2, lastBasicAuth calls = some (u2, p2) ∧
        (client.applyCalls calls client.Request.fresh).HTTP.Header.PeekAll "Authorization"
          = ("Basic " ++ base64.StdEncoding.EncodeToString (bytes (u2 ++ ":" ++ p2)))
              :: ((valuesOf "Authorization" (addedHeaders pre)).tail
                    ++ valuesOf "Authorization" (addedHeaders post))) := by
  have hfresh : ∀ kv ∈ client.Request.fresh.HTTP.Header.h, kv.key ≠ "Cookie" :=
    fun kv hkv => absurd hkv (List.not_mem_nil _)
  refine ⟨?_, ?_, ?_⟩
  · have h := h_applyCalls_other_names calls client.Request.fresh hfresh hck
    simpa [client.Request.fresh] using h
  · intro hno
    have h := h_applyCalls_of_no_BasicAuth calls client.Request.fresh hfresh hck hno
    simpa [client.Request.fresh] using h
  · intro pre post username password hcalls hpre
    have hckpre : ∀ c ∈ pre, namesCookie c = false := by
      intro c hc
      exact hck c (by rw [hcalls]; exact List.mem_append_left _ hc)
    have hckpost : ∀ c ∈ post, namesCookie c = false := by
      intro c hc
      exact hck c (by rw [hcalls]; exact List.mem_append_right _ (List.mem_cons_of_mem _ hc))
    refine ⟨((lastBasicAuth post).getD (username, password)).1,
      ((lastBasicAuth post).getD (username, password)).2, ?_, ?_⟩
    · rw [hcalls, lastBasicAuth_append_cons]
    · have hsplit : client.applyCalls calls client.Request.fresh
          = client.applyCalls post (client.BasicAuth username password
              (client.applyCalls pre client.Request.fresh)) := by
        rw [hcalls, applyCalls_append]
        rfl
      have hpreh : (client.applyCalls pre client.Request.fresh).HTTP.Header.h
          = addedHeaders pre := by
        have h := h_applyCalls_of_no_BasicAuth pre client.Request.fresh hfresh hckpre hpre
        simpa [client.Request.fresh] using h
      have hprenc := no_Cookie_after_calls pre client.Request.fresh hfresh hckpre
      simp only [RequestHeader.PeekAll, normalize_Authorization]
      rw [hsplit, auth_values_after_BasicAuth post username password _ hprenc hckpost, hpreh]
      rfl

/-- C6 at two concrete sequences: two AddHeader calls for Authorization
followed by BasicAuth leave the Basic value first and the second added value
after it; two AddHeader calls for one other name, with an AddCookie between
them, leave both pairs. -/
theorem C6_headers_of_option_sequence_witness :
    (client.applyCalls sample.authCalls client.Request.fresh).HTTP.Header.PeekAll
        "Authorization" = ["Basic YWxpY2U6c2VjcmV0", "b"] ∧
    (client.applyCalls [client.OptionCall.AddHeader "x-trace" "1",
        client.OptionCall.AddCookie "k" "v", client.OptionCall.AddHeader "X-Trace" "2"]
        client.Request.fresh).HTTP.Header.h = [⟨"X-Trace", "1"⟩, ⟨"X-Trace", "2"⟩] := by
  refine ⟨?_, ?_⟩
  · obtain ⟨u2, p2, hl, hp⟩ := (C6_headers_of_option_sequence sample.authCalls
      (by decide)).2.2
      [client.OptionCall.AddHeader "Authorization" "a",
        client.OptionCall.AddHeader "Authorization" "b"] [] "alice" "secret" rfl rfl
    have hlast : lastBasicAuth sample.authCalls = some ("alice", "secret") := by decide
    rw [hlast] at hl
    have hu : u2 = "alice" := by cases hl; rfl
    have hpw : p2 = "secret" := by cases hl; rfl
    rw [hp, hu, hpw]
    decide
  · exact (C6_headers_of_option_sequence _ (by decide)).2.1 (by decide)

/-- C6 fails as stated: after two AddHeader calls for Authorization and a
BasicAuth, the stored headers hold the Basic value and the second added value,
while the header set the claim describes holds the Basic value alone. -/
theorem C6_counterexample_second_Authorization_survives :
    (client.applyCalls sample.authCalls client.Request.fresh).HTTP.Header.h
      = [⟨"Authorization", "Basic YWxpY2U6c2VjcmV0"⟩, ⟨"Authorization", "b"⟩] ∧
    specHeaders sample.authCalls = [⟨"Authorization", "Basic YWxpY2U6c2VjcmV0"⟩] ∧
    ¬ List.Perm (client.applyCalls sample.authCalls client.Request.fresh).HTTP.Header.h
        (specHeaders sample.authCalls) := by
  have h1 : (client.applyCalls sample.authCalls client.Request.fresh).HTTP.Header.h
      = [⟨"Authorization", "Basic YWxpY2U6c2VjcmV0"⟩, ⟨"Authorization", "b"⟩] := by decide
  have h2 : specHeaders sample.authCalls
      = [⟨"Authorization", "Basic YWxpY2U6c2VjcmV0"⟩] := by decide
  refine ⟨h1, h2, ?_⟩
  rw [h1, h2]
  intro hp
  have hlen := hp.length_eq
  simp at hlen

end options

end gqlgen
